import Mathlib

/-!
# Torrent identity, tracker announce and connection acceptor (`dto.go`)

A shallow embedding of the Go source `dto.go` and machine-checked statements
about it.

Conventions of the embedding:

* a Go `string` used as raw bytes (the compact peer list) is a `List Byte`;
* a Go result pair `(value, error)` is a structure with an `err : Option String`
  field, `none` standing for the `nil` error; a possibly-`nil` slice is an
  `Option (List _)`, `none` standing for `nil`;
* a run-time panic (slice or index out of range, or a panic raised inside a
  library call) is the outer `none` of an `Option`; the theorems show where it
  cannot occur and where it does;
* calls into the environment (`net.Listen`, `Tracker.Announce`, `rand.Perm`,
  the bencode package, SHA-1, the file system) are parameters, and every such
  call is recorded in an explicit log where the order of calls matters.
-/

set_option autoImplicit false

namespace BittorrentClient

/-! ## Data model -/

/-- One byte of a Go `string` / `[]byte`. -/
abbrev Byte := Fin 256

/-- The `Peer` struct filled in by `ParsePeers`: `Address` is a Go `string`,
`Port` a Go `int` (it only ever receives a `uint16`). -/
structure Peer where
  Address : String
  Port : Nat
deriving DecidableEq, Repr, Inhabited

/-- The `Tracker` struct: a tracker is identified by its URL. -/
structure Tracker where
  Url : String
deriving DecidableEq, Repr

/-- A Go result pair `([]Peer, error)`. -/
structure PeersResult where
  peers : Option (List Peer)
  err : Option String
deriving DecidableEq, Repr

/-! ## Go primitives used by `ParsePeers` -/

/-- The slice expression `s[lo:hi]`; `none` is the out-of-range panic. -/
def slice (s : List Byte) (lo hi : Nat) : Option (List Byte) :=
  if lo ≤ hi ∧ hi ≤ s.length then some ((s.drop lo).take (hi - lo)) else none

/-- The ASCII digit `v + '0'`. -/
def digitChar (v : Nat) : Char := Char.ofNat (v + 48)

/-- Go `net.ubtoa`: the decimal text of one byte, without leading zeros. -/
def ubtoa (v : Byte) : List Char :=
  if v.val < 10 then [digitChar v.val]
  else if v.val < 100 then [digitChar (v.val / 10), digitChar (v.val % 10)]
  else [digitChar (v.val / 100), digitChar (v.val / 10 % 10), digitChar (v.val % 10)]

/-- A `net.IP` value as built by `net.IPv4(a, b, c, d)`: its four octets. -/
structure IP where
  a : Byte
  b : Byte
  c : Byte
  d : Byte
deriving DecidableEq, Repr

/-- Go `net.IPv4(a, b, c, d)`. -/
def IPv4 (a b c d : Byte) : IP := ⟨a, b, c, d⟩

/-- Go `IP.String()` on an IPv4 address: the dotted notation assembled from
four `ubtoa` calls with `'.'` written between them. -/
def IP.String (ip : IP) : String :=
  String.mk (ubtoa ip.a ++ '.' :: (ubtoa ip.b ++ '.' :: (ubtoa ip.c ++ '.' :: ubtoa ip.d)))

/-- Go `binary.BigEndian.Uint16(b)`: `uint16(b[1]) | uint16(b[0])<<8`, after the
bounds check on `b[1]`; `none` is the index-out-of-range panic. -/
def Uint16 (b : List Byte) : Option Nat := do
  let b1 ← b[1]?
  let b0 ← b[0]?
  pure ((b1.val ||| (b0.val <<< 8)) % 65536)

/-- The assignment `peerList[i] = peer`; `none` is the index-out-of-range panic. -/
def assignAt (peerList : List Peer) (i : Nat) (peer : Peer) : Option (List Peer) :=
  if i < peerList.length then some (peerList.set i peer) else none

/-! ## `Tracker.ParsePeers` -/

/-- The body of the `for` loop of `ParsePeers` up to the construction of `peer`
for index `i`. -/
def parsePeerAt (peers : List Byte) (i : Nat) : Option Peer := do
  let ipBytes ← slice peers (i * 6) ((i * 6) + 6)
  let ip := IPv4 (← ipBytes[0]?) (← ipBytes[1]?) (← ipBytes[2]?) (← ipBytes[3]?)
  let port ← Uint16 (← slice ipBytes 4 6)
  pure { Address := ip.String, Port := port }

/-- The loop `for i := 0; i < peerCount; i++ { ...; peerList[i] = peer }`, by
recursion on the number `peerCount - i` of iterations still to run. -/
def parsePeersLoop (peers : List Byte) : Nat → Nat → List Peer → Option (List Peer)
  | 0, _, peerList => some peerList
  | todo + 1, i, peerList => do
    let peer ← parsePeerAt peers i
    let peerList ← assignAt peerList i peer
    parsePeersLoop peers todo (i + 1) peerList

/-- `func (c *Tracker) ParsePeers(peers string) ([]Peer, error)`. -/
def Tracker.ParsePeers (_c : Tracker) (peers : List Byte) : Option PeersResult :=
  if peers.length % 6 ≠ 0 then
    some ⟨none, some "Peer string length is not a multiple of 6"⟩
  else
    let peerCount := peers.length / 6
    let peerList := List.replicate peerCount (⟨"", 0⟩ : Peer)
    (parsePeersLoop peers peerCount 0 peerList).map fun l => ⟨some l, none⟩

/-! ## Connection acceptor: `BittorentNetwork.Start` -/

/-- A listening socket returned by a successful `net.Listen("tcp", ":p")`,
identified by the port it is bound on. -/
structure Listener where
  port : Nat
deriving DecidableEq, Repr

/-- The receiver of `Start`. Its declaration is not part of `dto.go`; `Start`
uses one field, `listener`, a `net.Listener` that can be `nil`. -/
structure BittorentNetwork where
  listener : Option Listener
deriving DecidableEq, Repr

/-- The variables of `Start` while its loop runs: the receiver, the local `port`,
and the ports handed to `net.Listen` so far, oldest first. -/
structure StartState where
  c : BittorentNetwork
  port : Int
  attempts : List Nat
deriving DecidableEq, Repr

/-- What a call of `Start` leaves behind: the returned pair `(int, error)`, the
receiver afterwards, the ports handed to `net.Listen` in order, and whether
`go c.listenOnPort(callback)` was executed. -/
structure StartResult where
  port : Int
  err : Option String
  c : BittorentNetwork
  attempts : List Nat
  acceptTask : Bool
deriving DecidableEq, Repr

/-- The loop `for i := 6881; i < 6890; i++ { ... }` of `Start`, by recursion on the
number of iterations still to run. `bindable i` tells whether
`net.Listen("tcp", ":i")` returns a `nil` error. -/
def startLoop (bindable : Nat → Bool) : Nat → Nat → StartState → StartState
  | 0, _, st => st
  | todo + 1, i, st =>
    if bindable i then
      { c := { listener := some ⟨i⟩ }, port := (i : Int), attempts := st.attempts ++ [i] }
    else
      startLoop bindable todo (i + 1) { st with attempts := st.attempts ++ [i] }

/-- `func (c *BittorentNetwork) Start(callback func(net.Conn)) (int, error)`. -/
def BittorentNetwork.Start (c : BittorentNetwork) (bindable : Nat → Bool) : StartResult :=
  let st := startLoop bindable (6890 - 6881) 6881 { c := c, port := -1, attempts := [] }
  if st.c.listener = none then
    { port := 0, err := some "Unable to bind to port between 6881 and 6889", c := st.c,
      attempts := st.attempts, acceptTask := false }
  else
    { port := st.port, err := none, c := st.c, attempts := st.attempts, acceptTask := true }

/-! ## Torrent descriptor: data model -/

/-- The struct `File`. -/
structure File where
  Length : Int
  Md5sum : String
  Path : String
deriving DecidableEq, Repr

/-- The struct `MetaInfoData`. -/
structure MetaInfoData where
  Name : String
  PieceLength : Int
  Pieces : String
  Private : Int
  Length : Int
  Md5sum : String
  Files : List File
deriving DecidableEq, Repr

/-- The struct `MetaInfo`. -/
structure MetaInfo where
  Announce : String
  AnnounceList : List (List String)
  Info : MetaInfoData
  Encoding : String
  CreationDate : Int
  CreatedBy : String
deriving DecidableEq, Repr

/-- The struct `Torrent`; `Hash` is a `[]byte` that can be `nil`. -/
structure Torrent where
  Path : String
  Data : MetaInfo
  Hash : Option (List Byte)
deriving DecidableEq, Repr

/-- The zero value `MetaInfo{}`. -/
def MetaInfo.zero : MetaInfo := ⟨"", [], ⟨"", 0, "", 0, 0, "", []⟩, "", 0, ""⟩

/-- The zero value `Torrent{}`. -/
def Torrent.zero : Torrent := ⟨"", MetaInfo.zero, none⟩

/-! ## Announce coordinator -/

/-- Modelled from the spec: the struct `TrackerResponse`, whose declaration is not
part of `dto.go`. The response body has the keys `failure reason` (string),
`interval` (seconds) and `peers` (byte string in compact mode). -/
structure TrackerResponse where
  FailureReason : String
  Interval : Int
  Peers : List Byte
deriving DecidableEq, Repr

/-- The zero value `TrackerResponse{}`. -/
def TrackerResponse.zero : TrackerResponse := ⟨"", 0, []⟩

/-- The result pair `(TrackerResponse, error)` of `Tracker.Announce`. -/
structure AnnounceResult where
  resp : TrackerResponse
  err : Option String
deriving DecidableEq, Repr

/-- One call of `Tracker.Announce`, tagged with the call site: inside the tier
loop, or on the top-level announce URL after it. -/
inductive Attempt where
  | tiered (url : String)
  | topLevel (url : String)
deriving DecidableEq, Repr

/-- Whether an attempt is the one on the top-level announce URL. -/
def Attempt.isTopLevel : Attempt → Bool
  | .tiered _ => false
  | .topLevel _ => true

/-- How a block of the coordinator ends: control falls through to the statement
after it, or the function returns `(resp, succeeded)`. Both carry the attempts
made so far, oldest first. -/
inductive Flow where
  | next (log : List Attempt)
  | ret (resp : TrackerResponse) (succeeded : Bool) (log : List Attempt)
deriving DecidableEq, Repr

/-- What the coordinator returns, `(TrackerResponse, bool)`, with the attempts made. -/
structure CoordinatorResult where
  resp : TrackerResponse
  succeeded : Bool
  log : List Attempt
deriving DecidableEq, Repr

/-- The inner loop `for _, index := range rand.Perm(len(tier)) { ... }` over the
indices still to visit; `none` is the index-out-of-range panic of `tier[index]`.
`announce url` is the result of `Tracker{url}.Announce(trackerRequest)`. -/
def tierLoop (announce : String → AnnounceResult) (tier : List String) :
    List Nat → List Attempt → Option Flow
  | [], log => some (.next log)
  | index :: rest, log =>
    match tier[index]? with
    | none => none
    | some url =>
      let tracker : Tracker := ⟨url⟩
      let r := announce tracker.Url
      if r.err = none ∧ r.resp.FailureReason.length = 0 then
        some (.ret r.resp true (log ++ [.tiered tracker.Url]))
      else
        tierLoop announce tier rest (log ++ [.tiered tracker.Url])

/-- The outer loop `for _, tier := range torrent.Data.AnnounceList { ... }`.
`perm j n` is the slice returned by the call `rand.Perm(n)` made for tier number `j`. -/
def tiersLoop (announce : String → AnnounceResult) (perm : Nat → Nat → List Nat) :
    List (List String) → Nat → List Attempt → Option Flow
  | [], _, log => some (.next log)
  | tier :: rest, j, log =>
    match tierLoop announce tier (perm j tier.length) log with
    | none => none
    | some (.ret resp succeeded log1) => some (.ret resp succeeded log1)
    | some (.next log1) => tiersLoop announce perm rest (j + 1) log1

/-- The announce coordinator (lines 178-204 of `dto.go`): the tier loop guarded by
`len(torrent.Data.AnnounceList) > 0`, then the attempt on the top-level announce URL. -/
def announceCoordinator (announce : String → AnnounceResult) (perm : Nat → Nat → List Nat)
    (torrent : Torrent) : Option CoordinatorResult :=
  let tiers : Option Flow :=
    if torrent.Data.AnnounceList.length > 0 then
      tiersLoop announce perm torrent.Data.AnnounceList 0 []
    else some (.next [])
  match tiers with
  | none => none
  | some (.ret resp succeeded log) => some ⟨resp, succeeded, log⟩
  | some (.next log) =>
    let tracker : Tracker := ⟨torrent.Data.Announce⟩
    let r := announce tracker.Url
    if r.err = none then
      some ⟨r.resp, true, log ++ [.topLevel tracker.Url]⟩
    else
      some ⟨TrackerResponse.zero, false, log ++ [.topLevel tracker.Url]⟩

/-! ## Torrent descriptor: `computeInfoHash` and `NewTorrent` -/

/-- A value returned by `bencode.Decode`: an `int64`, a `string`, a
`[]interface{}` or a `map[string]interface{}`. -/
inductive BValue where
  | int (v : Int)
  | str (s : List Byte)
  | list (items : List BValue)
  | dict (entries : List (String × BValue))

/-- The package `github.com/jackpal/bencode-go` as used by `dto.go`, taken as a
parameter. The argument of `Marshal` is an `interface{}`: `none` is `nil`.
`Unmarshal` fills a `MetaInfo` by reflection and can panic instead of returning
(on a top-level integer: `setint called for bogus type`): its result `none` is
that panic. -/
structure Bencode where
  Decode : List Byte → Except String BValue
  Marshal : Option BValue → Except String (List Byte)
  Unmarshal : List Byte → Option (Except String MetaInfo)

/-- The `crypto/sha1` digest of a byte string, taken as a parameter; a digest has
`sha1.Size = 20` bytes. -/
structure Sha1 where
  sum : List Byte → List Byte
  size : ∀ b, (sum b).length = 20

/-- The file system: `os.Open(path)` followed by reading the file gives its
content or an error. -/
structure FileSystem where
  Open : String → Except String (List Byte)

/-- A Go result pair `([]byte, error)`. -/
structure HashResult where
  hash : Option (List Byte)
  err : Option String
deriving DecidableEq, Repr

/-- A Go result pair `(Torrent, error)`. -/
structure TorrentResult where
  torrent : Torrent
  err : Option String
deriving DecidableEq, Repr

/-- `func computeInfoHash(torrentPath string) ([]byte, error)`. The index
expression `torrentDict["info"]` is the lookup in the decoded map, `nil` for an
absent key. -/
def computeInfoHash (fs : FileSystem) (bc : Bencode) (sha : Sha1) (torrentPath : String) :
    HashResult :=
  match fs.Open torrentPath with
  | .error e => ⟨none, some ("Failed to open torrent: " ++ e)⟩
  | .ok file =>
    match bc.Decode file with
    | .error e => ⟨none, some ("Failed to decode torrent file: " ++ e)⟩
    | .ok data =>
      match data with
      | .dict torrentDict =>
        match bc.Marshal (torrentDict.lookup "info") with
        | .error e => ⟨none, some ("Failed to encode info dict: " ++ e)⟩
        | .ok infoBuffer => ⟨some (sha.sum infoBuffer), none⟩
      | _ => ⟨none, some "Torrent file is not a dictionary"⟩

/-- `func NewTorrent(path string) (Torrent, error)`, the definition at lines 99-124
of `dto.go`, which computes the info hash. `bencode.Unmarshal(file, &info)` runs
first; `none` is a panic raised inside it, which `NewTorrent` does not recover. -/
def NewTorrent (fs : FileSystem) (bc : Bencode) (sha : Sha1) (path : String) :
    Option TorrentResult :=
  match fs.Open path with
  | .error e => some ⟨Torrent.zero, some ("Failed to open torrent file: " ++ e)⟩
  | .ok file =>
    match bc.Unmarshal file with
    | none => none
    | some (.error e) => some ⟨Torrent.zero, some ("Failed to decode torrent file: " ++ e)⟩
    | some (.ok info) =>
      let r := computeInfoHash fs bc sha path
      match r.err with
      | some e => some ⟨Torrent.zero, some ("Failed to compute info hash: " ++ e)⟩
      | none => some ⟨⟨path, info, r.hash⟩, none⟩

/-! ## Reference descriptions used to state the properties of `ParsePeers` -/

/-- Four octets written in decimal and separated by dots, in the words of the
specification; stated with the library's `Nat.repr`, independently of `ubtoa`. -/
def dottedDecimal (a b c d : Byte) : String :=
  Nat.repr a.val ++ "." ++ Nat.repr b.val ++ "." ++ Nat.repr c.val ++ "." ++ Nat.repr d.val

/-- The endpoint that the loop body builds from the bytes of record `i`, read
with a default where the string is too short. -/
def peerAt (peers : List Byte) (i : Nat) : Peer :=
  ⟨(IPv4 (peers.getD (i * 6) 0) (peers.getD (i * 6 + 1) 0) (peers.getD (i * 6 + 2) 0)
      (peers.getD (i * 6 + 3) 0)).String,
    ((peers.getD (i * 6 + 5) 0).val ||| ((peers.getD (i * 6 + 4) 0).val <<< 8)) % 65536⟩

/-- Splitting a text at every `'.'`. -/
def splitDots : List Char → List (List Char)
  | [] => [[]]
  | ch :: rest =>
    if ch = '.' then [] :: splitDots rest
    else match splitDots rest with
      | [] => [[ch]]
      | w :: ws => (ch :: w) :: ws

/-- Reading a decimal numeral of one to three digits as a byte. -/
def parseOctet (digits : List Char) : Option Byte :=
  if digits = [] ∨ 3 < digits.length ∨ ¬ digits.all Char.isDigit then none
  else
    let n := digits.foldl (fun acc ch => 10 * acc + (ch.toNat - 48)) 0
    if h : n < 256 then some ⟨n, h⟩ else none

/-- Re-encoding of one endpoint as a compact record: the four octets of its
dotted address, then its port as two big-endian bytes. -/
def encodePeer (p : Peer) : Option (List Byte) :=
  match (splitDots p.Address.data).map parseOctet with
  | [some a, some b, some c, some d] =>
    if h : p.Port < 65536 then
      some [a, b, c, d, ⟨p.Port / 256, by omega⟩, ⟨p.Port % 256, by omega⟩]
    else none
  | _ => none

/-- Re-encoding of an endpoint list: the concatenation of the records. -/
def encodePeers : List Peer → Option (List Byte)
  | [] => some []
  | p :: rest => do
    let r ← encodePeer p
    let rs ← encodePeers rest
    pure (r ++ rs)

/-! ## Reference descriptions used to state the properties of the coordinator -/

/-- The test the tier loop applies to an answer: `err == nil` and an empty
`FailureReason`. -/
def accepted (announce : String → AnnounceResult) (url : String) : Prop :=
  (announce url).err = none ∧ (announce url).resp.FailureReason.length = 0

instance (announce : String → AnnounceResult) (url : String) :
    Decidable (accepted announce url) := by
  unfold accepted
  infer_instance

/-- The traversal order of the tiered trackers, from tier number `j` on: tiers in
declared order, the trackers of a tier in the order of that tier's permutation. -/
def traversalFrom (perm : Nat → Nat → List Nat) : List (List String) → Nat → List String
  | [], _ => []
  | tier :: rest, j =>
    (perm j tier.length).filterMap (fun index => tier[index]?) ++ traversalFrom perm rest (j + 1)

/-- The traversal order of all tiered trackers of an announce-list. -/
def traversal (perm : Nat → Nat → List Nat) (tiers : List (List String)) : List String :=
  traversalFrom perm tiers 0

/-- Announcing to a list of trackers one after the other until one is accepted. -/
def walk (announce : String → AnnounceResult) : List String → List Attempt → Flow
  | [], log => .next log
  | url :: rest, log =>
    if accepted announce url then .ret (announce url).resp true (log ++ [.tiered url])
    else walk announce rest (log ++ [.tiered url])

/-- The condition under which the coordinator reports failure, in the words of the
specification: no tiered tracker is accepted and the top-level attempt errs. -/
def allFailed (announce : String → AnnounceResult) (torrent : Torrent) : Prop :=
  (∀ tier ∈ torrent.Data.AnnounceList, ∀ url ∈ tier, ¬ accepted announce url) ∧
  (announce torrent.Data.Announce).err ≠ none

/-! ## Concrete scenarios -/

/-- The permutation source that leaves every tier in declared order. -/
def identityPerm : Nat → Nat → List Nat := fun _ n => List.range n

/-- The permutation source that swaps the two trackers of a first tier of size 2
and leaves every other tier in declared order. -/
def swapFirstPerm : Nat → Nat → List Nat :=
  fun j n => if j = 0 ∧ n = 2 then [1, 0] else List.range n

/-- A torrent with the announce-list `[[A, B], [C]]` and the top-level URL `T`. -/
def twoTierTorrent : Torrent :=
  ⟨"demo.torrent", { MetaInfo.zero with Announce := "T", AnnounceList := [["A", "B"], ["C"]] },
    none⟩

/-- The answer of tracker `C` in the scenarios: one peer, no failure reason. -/
def goodResponse : TrackerResponse := ⟨"", 1800, [127, 0, 0, 1, 0x1A, 0xE1]⟩

/-- Trackers of which only `C` answers; every other URL fails at the transport level. -/
def onlyCAnswers : String → AnnounceResult :=
  fun url => if url = "C" then ⟨goodResponse, none⟩
    else ⟨TrackerResponse.zero, some "Tracker announcement failed"⟩

/-- A torrent without announce-list, with the top-level URL `T`. -/
def bareTorrent : Torrent :=
  ⟨"bare.torrent", { MetaInfo.zero with Announce := "T" }, none⟩

/-- A tracker that is reached but rejects the request with a failure reason. -/
def rejectingAnnounce : String → AnnounceResult :=
  fun _ => ⟨⟨"torrent not registered", 0, []⟩, none⟩

/-- A tracker that is reached and answers with an empty response. -/
def emptyAnnounce : String → AnnounceResult :=
  fun _ => ⟨TrackerResponse.zero, none⟩

/-- Trackers that all fail at the transport level. -/
def deadAnnounce : String → AnnounceResult :=
  fun _ => ⟨TrackerResponse.zero, some "Tracker announcement failed"⟩

/-- A stand-in digest for the scenarios: twenty copies of the input length
modulo 256. -/
def toySha1 : Sha1 :=
  ⟨fun b => List.replicate 20 (Fin.ofNat b.length), fun _ => List.length_replicate 20 _⟩

/-- The `info` sub-tree shared by the scenario files. -/
def toyInfo : BValue := .dict [("name", .str [97]), ("piece length", .int 16384)]

/-- A stand-in for the bencode package on four scenario files: two dictionaries
with the same `info` entry and different other keys, a dictionary without `info`,
and the file `i5e`, a top-level integer. `Marshal` rejects `nil`; `Unmarshal`
panics on the top-level integer and fills a `MetaInfo` otherwise. -/
def toyBencode : Bencode where
  Decode := fun file =>
    match file with
    | [1] => .ok (.dict [("announce", .str [116]), ("info", toyInfo)])
    | [2] => .ok (.dict [("comment", .int 7), ("info", toyInfo),
        ("announce-list", .list [.list [.str [117]]])])
    | [3] => .ok (.dict [("announce", .str [116])])
    | [105, 53, 101] => .ok (.int 5)
    | _ => .error "syntax error"
  Marshal := fun v =>
    match v with
    | none => .error "Can't write null value"
    | some (.dict entries) => .ok (List.replicate entries.length 100)
    | some _ => .ok [105]
  Unmarshal := fun file =>
    match file with
    | [105, 53, 101] => none
    | _ => some (.ok MetaInfo.zero)

/-- The scenario files by path. -/
def toyFiles : FileSystem where
  Open := fun path =>
    if path = "a.torrent" then .ok [1]
    else if path = "b.torrent" then .ok [2]
    else if path = "c.torrent" then .ok [3]
    else if path = "d.torrent" then .ok [105, 53, 101]
    else .error "no such file"

/-! # Theorems -/

/-! ## `ParsePeers` -/

theorem or_shift_value (e f : Nat) (hf : f < 256) : f ||| (e <<< 8) = 256 * e + f := by
  rw [Nat.shiftLeft_eq, Nat.or_comm, Nat.mul_comm, show (256 : Nat) = 2 ^ 8 from rfl,
    ← Nat.mul_add_lt_is_or (by simpa using hf)]

theorem uint16_value (e f : Byte) : (f.val ||| (e.val <<< 8)) % 65536 = 256 * e.val + f.val := by
  have he := e.isLt
  have hf := f.isLt
  rw [or_shift_value e.val f.val hf]
  omega

set_option maxRecDepth 100000 in
theorem ubtoa_eq_repr : ∀ v : Byte, ubtoa v = (Nat.repr v.val).data := by decide

set_option maxRecDepth 100000 in
theorem parseOctet_ubtoa : ∀ v : Byte, parseOctet (ubtoa v) = some v := by decide

set_option maxRecDepth 100000 in
theorem ubtoa_no_dot : ∀ v : Byte, '.' ∉ ubtoa v := by decide

theorem IP_String_eq_dottedDecimal (a b c d : Byte) :
    (IPv4 a b c d).String = dottedDecimal a b c d := by
  apply String.ext
  simp [IP.String, IPv4, dottedDecimal, String.data_append, ubtoa_eq_repr]

theorem getElem?_eq_some_getD (l : List Byte) (n : Nat) (h : n < l.length) :
    l[n]? = some (l.getD n 0) := by
  simp [List.getD, List.getElem?_eq_getElem h]

theorem parsePeerAt_eq (peers : List Byte) (i : Nat) (h : i * 6 + 6 ≤ peers.length) :
    parsePeerAt peers i = some (peerAt peers i) := by
  have h0 := getElem?_eq_some_getD peers (i * 6) (by omega)
  have h1 := getElem?_eq_some_getD peers (i * 6 + 1) (by omega)
  have h2 := getElem?_eq_some_getD peers (i * 6 + 2) (by omega)
  have h3 := getElem?_eq_some_getD peers (i * 6 + 3) (by omega)
  have h4 := getElem?_eq_some_getD peers (i * 6 + 4) (by omega)
  have h5 := getElem?_eq_some_getD peers (i * 6 + 5) (by omega)
  have hs : slice peers (i * 6) (i * 6 + 6) = some ((peers.drop (i * 6)).take 6) := by
    simp [slice, h]
  have hl : ((peers.drop (i * 6)).take 6).length = 6 := by
    simp [List.length_take, List.length_drop]; omega
  have hs2 : slice ((peers.drop (i * 6)).take 6) 4 6
      = some ((((peers.drop (i * 6)).take 6).drop 4).take 2) := by
    simp [slice, hl]
  have g0 : ((peers.drop (i * 6)).take 6)[0]? = some (peers.getD (i * 6) 0) := by
    rw [List.getElem?_take, List.getElem?_drop]; simpa using h0
  have g1 : ((peers.drop (i * 6)).take 6)[1]? = some (peers.getD (i * 6 + 1) 0) := by
    rw [List.getElem?_take, List.getElem?_drop]; simpa using h1
  have g2 : ((peers.drop (i * 6)).take 6)[2]? = some (peers.getD (i * 6 + 2) 0) := by
    rw [List.getElem?_take, List.getElem?_drop]; simpa using h2
  have g3 : ((peers.drop (i * 6)).take 6)[3]? = some (peers.getD (i * 6 + 3) 0) := by
    rw [List.getElem?_take, List.getElem?_drop]; simpa using h3
  have g4 : ((((peers.drop (i * 6)).take 6).drop 4).take 2)[0]?
      = some (peers.getD (i * 6 + 4) 0) := by
    rw [List.getElem?_take, List.getElem?_drop, List.getElem?_take, List.getElem?_drop]
    simpa using h4
  have g5 : ((((peers.drop (i * 6)).take 6).drop 4).take 2)[1]?
      = some (peers.getD (i * 6 + 5) 0) := by
    rw [List.getElem?_take, List.getElem?_drop, List.getElem?_take, List.getElem?_drop]
    simpa using h5
  simp only [parsePeerAt, hs, Option.bind_eq_bind, Option.some_bind, g0, g1, g2, g3, hs2,
    Uint16, g4, g5, peerAt, Option.pure_def, bind_pure_comp, Option.map_some']

theorem set_length_append (pre suf : List Peer) (x p : Peer) :
    (pre ++ x :: suf).set pre.length p = pre ++ p :: suf := by
  induction pre with
  | nil => rfl
  | cons y ys ih => simp [ih]

theorem parsePeersLoop_eq (peers : List Byte) :
    ∀ (todo i : Nat) (pre suf : List Peer), pre.length = i → suf.length = todo →
      (i + todo) * 6 ≤ peers.length →
      parsePeersLoop peers todo i (pre ++ suf)
        = some (pre ++ (List.range' i todo).map (peerAt peers)) := by
  intro todo
  induction todo with
  | zero =>
    intro i pre suf _ hsuf _
    have : suf = [] := List.length_eq_zero.mp hsuf
    simp [parsePeersLoop, this]
  | succ n ih =>
    intro i pre suf hpre hsuf hlen
    obtain ⟨x, suf', rfl⟩ : ∃ x suf', suf = x :: suf' := by
      cases suf with
      | nil => simp at hsuf
      | cons x suf' => exact ⟨x, suf', rfl⟩
    have hp := parsePeerAt_eq peers i (by omega)
    have hset : assignAt (pre ++ x :: suf') i (peerAt peers i)
        = some ((pre ++ [peerAt peers i]) ++ suf') := by
      subst hpre
      simp [assignAt, set_length_append]
    have hrec := ih (i + 1) (pre ++ [peerAt peers i]) suf' (by simp [hpre])
      (by simpa using hsuf) (by omega)
    simp only [List.append_assoc, List.singleton_append] at hrec hset
    simp [parsePeersLoop, hp, hset, hrec, List.range'_succ]

theorem ParsePeers_ok (c : Tracker) (peers : List Byte) (k : Nat) (hlen : peers.length = 6 * k) :
    c.ParsePeers peers = some ⟨some ((List.range k).map (peerAt peers)), none⟩ := by
  have hmod : peers.length % 6 = 0 := by omega
  have hdiv : peers.length / 6 = k := by omega
  have h := parsePeersLoop_eq peers k 0 [] (List.replicate k (⟨"", 0⟩ : Peer)) rfl
    (by simp) (by omega)
  simp only [List.nil_append] at h
  simp [Tracker.ParsePeers, hmod, hdiv, h, List.range_eq_range']

theorem splitDots_no_dot (w : List Char) (hw : '.' ∉ w) : splitDots w = [w] := by
  induction w with
  | nil => rfl
  | cons ch rest ih =>
    have hch : ch ≠ '.' := fun h => hw (by simp [h])
    have hrest : '.' ∉ rest := fun h => hw (List.mem_cons_of_mem _ h)
    simp [splitDots, hch, ih hrest]

theorem splitDots_append_dot (w r : List Char) (hw : '.' ∉ w) :
    splitDots (w ++ '.' :: r) = w :: splitDots r := by
  induction w with
  | nil => simp [splitDots]
  | cons ch rest ih =>
    have hch : ch ≠ '.' := fun h => hw (by simp [h])
    have hrest : '.' ∉ rest := fun h => hw (List.mem_cons_of_mem _ h)
    simp [splitDots, hch, ih hrest]

theorem encodePeer_record (a b c d e f : Byte) :
    encodePeer ⟨(IPv4 a b c d).String, (f.val ||| (e.val <<< 8)) % 65536⟩
      = some [a, b, c, d, e, f] := by
  have hsplit : splitDots (ubtoa a ++ '.' :: (ubtoa b ++ '.' :: (ubtoa c ++ '.' :: ubtoa d)))
      = [ubtoa a, ubtoa b, ubtoa c, ubtoa d] := by
    rw [splitDots_append_dot _ _ (ubtoa_no_dot a), splitDots_append_dot _ _ (ubtoa_no_dot b),
      splitDots_append_dot _ _ (ubtoa_no_dot c), splitDots_no_dot _ (ubtoa_no_dot d)]
  have he := e.isLt
  have hf := f.isLt
  have hport : 256 * e.val + f.val < 65536 := by omega
  have hdiv : (256 * e.val + f.val) / 256 = e.val := by omega
  have hmod : (256 * e.val + f.val) % 256 = f.val := by omega
  simp only [encodePeer, IP.String, IPv4, hsplit, List.map_cons, List.map_nil, parseOctet_ubtoa,
    uint16_value, hport, dite_true, hdiv, hmod]

theorem peerAt_cons6 (a b c d e f : Byte) (rest : List Byte) (j : Nat) :
    peerAt (a :: b :: c :: d :: e :: f :: rest) (j + 1) = peerAt rest j := by
  have h0 : (j + 1) * 6 = j * 6 + 6 := by ring
  simp [peerAt, h0, List.getD]

theorem peerAt_zero (a b c d e f : Byte) (rest : List Byte) :
    peerAt (a :: b :: c :: d :: e :: f :: rest) 0
      = ⟨(IPv4 a b c d).String, (f.val ||| (e.val <<< 8)) % 65536⟩ := by
  simp [peerAt, List.getD]

theorem encodePeers_map_peerAt :
    ∀ (k : Nat) (peers : List Byte), peers.length = 6 * k →
      encodePeers ((List.range k).map (peerAt peers)) = some peers := by
  intro k
  induction k with
  | zero =>
    intro peers h
    have : peers = [] := List.length_eq_zero.mp (by simpa using h)
    simp [this, encodePeers]
  | succ n ih =>
    intro peers h
    match peers, h with
    | a :: b :: c :: d :: e :: f :: rest, h =>
      have hrest : rest.length = 6 * n := by simp at h; omega
      have hmap : (List.range n).map (peerAt (a :: b :: c :: d :: e :: f :: rest) ∘ Nat.succ)
          = (List.range n).map (peerAt rest) := by
        apply List.map_congr_left
        intro j _
        exact peerAt_cons6 a b c d e f rest j
      simp only [List.range_succ_eq_map, List.map_cons, List.map_map, hmap, encodePeers,
        peerAt_zero, encodePeer_record, ih rest hrest, Option.bind_eq_bind, Option.some_bind,
        Option.pure_def]
      rfl

/-- C1: for every byte string `peers`, `ParsePeers` returns (it does not panic),
and it returns an error if and only if `len(peers)` is not a multiple of 6; with an
error the peer list is `nil`, and for a length that is a multiple of 6 (0 included)
there is no error and a peer list is returned. -/
theorem ParsePeers_error_iff (c : Tracker) (peers : List Byte) :
    ∃ r : PeersResult, c.ParsePeers peers = some r ∧
      (r.err ≠ none ↔ peers.length % 6 ≠ 0) ∧
      (r.err ≠ none → r.peers = none) ∧
      (peers.length % 6 = 0 → r.err = none ∧ r.peers ≠ none) := by
  by_cases h : peers.length % 6 = 0
  · have hlen : peers.length = 6 * (peers.length / 6) := by omega
    exact ⟨_, ParsePeers_ok c peers _ hlen, by simp [h], by simp, by simp⟩
  · exact ⟨⟨none, some "Peer string length is not a multiple of 6"⟩,
      by simp [Tracker.ParsePeers, h], by simp [h], by simp, fun h0 => absurd h0 h⟩

/-- C2: for every `k` and every byte string `peers` of length `6k`, `ParsePeers`
returns without error exactly `k` endpoints in input order; endpoint `i` has as
`Address` the bytes `peers[6i] .. peers[6i+3]` written in that order as decimal octets
separated by dots, and as `Port` the number `256*peers[6i+4] + peers[6i+5]`, which
lies in `0..65535`. -/
theorem ParsePeers_decodes (c : Tracker) (k : Nat) (peers : List Byte)
    (hlen : peers.length = 6 * k) :
    ∃ l : List Peer, c.ParsePeers peers = some ⟨some l, none⟩ ∧ l.length = k ∧
      ∀ i, i < k → ∃ b0 b1 b2 b3 b4 b5 : Byte,
        peers[6 * i]? = some b0 ∧ peers[6 * i + 1]? = some b1 ∧ peers[6 * i + 2]? = some b2 ∧
        peers[6 * i + 3]? = some b3 ∧ peers[6 * i + 4]? = some b4 ∧ peers[6 * i + 5]? = some b5 ∧
        l[i]? = some ⟨dottedDecimal b0 b1 b2 b3, 256 * b4.val + b5.val⟩ ∧
        b0.val ≤ 255 ∧ b1.val ≤ 255 ∧ b2.val ≤ 255 ∧ b3.val ≤ 255 ∧
        256 * b4.val + b5.val ≤ 65535 := by
  refine ⟨_, ParsePeers_ok c peers k hlen, by simp, ?_⟩
  intro i hi
  have hc : 6 * i = i * 6 := Nat.mul_comm 6 i
  refine ⟨peers.getD (i * 6) 0, peers.getD (i * 6 + 1) 0, peers.getD (i * 6 + 2) 0,
    peers.getD (i * 6 + 3) 0, peers.getD (i * 6 + 4) 0, peers.getD (i * 6 + 5) 0,
    ?_, ?_, ?_, ?_, ?_, ?_, ?_, ?_⟩
  · rw [hc]; exact getElem?_eq_some_getD peers _ (by omega)
  · rw [hc]; exact getElem?_eq_some_getD peers _ (by omega)
  · rw [hc]; exact getElem?_eq_some_getD peers _ (by omega)
  · rw [hc]; exact getElem?_eq_some_getD peers _ (by omega)
  · rw [hc]; exact getElem?_eq_some_getD peers _ (by omega)
  · rw [hc]; exact getElem?_eq_some_getD peers _ (by omega)
  · rw [List.getElem?_map, List.getElem?_range hi]
    simp only [Option.map_some', peerAt, IP_String_eq_dottedDecimal, uint16_value]
  · have h0 := (peers.getD (i * 6) 0).isLt
    have h1 := (peers.getD (i * 6 + 1) 0).isLt
    have h2 := (peers.getD (i * 6 + 2) 0).isLt
    have h3 := (peers.getD (i * 6 + 3) 0).isLt
    have h4 := (peers.getD (i * 6 + 4) 0).isLt
    have h5 := (peers.getD (i * 6 + 5) 0).isLt
    omega

/-- Witness of C2 on the bytes `[127,0,0,1,0x1A,0xE1]`, which decode to the single
endpoint `127.0.0.1:6881`. -/
theorem ParsePeers_decodes_witness :
    ([127, 0, 0, 1, 0x1A, 0xE1] : List Byte).length = 6 * 1 ∧
    Tracker.ParsePeers ⟨"t"⟩ [127, 0, 0, 1, 0x1A, 0xE1]
      = some ⟨some [⟨"127.0.0.1", 6881⟩], none⟩ ∧
    ∃ l : List Peer, Tracker.ParsePeers ⟨"t"⟩ [127, 0, 0, 1, 0x1A, 0xE1] = some ⟨some l, none⟩ ∧
      l.length = 1 ∧
      ∀ i, i < 1 → ∃ b0 b1 b2 b3 b4 b5 : Byte,
        ([127, 0, 0, 1, 0x1A, 0xE1] : List Byte)[6 * i]? = some b0 ∧
        ([127, 0, 0, 1, 0x1A, 0xE1] : List Byte)[6 * i + 1]? = some b1 ∧
        ([127, 0, 0, 1, 0x1A, 0xE1] : List Byte)[6 * i + 2]? = some b2 ∧
        ([127, 0, 0, 1, 0x1A, 0xE1] : List Byte)[6 * i + 3]? = some b3 ∧
        ([127, 0, 0, 1, 0x1A, 0xE1] : List Byte)[6 * i + 4]? = some b4 ∧
        ([127, 0, 0, 1, 0x1A, 0xE1] : List Byte)[6 * i + 5]? = some b5 ∧
        l[i]? = some ⟨dottedDecimal b0 b1 b2 b3, 256 * b4.val + b5.val⟩ ∧
        b0.val ≤ 255 ∧ b1.val ≤ 255 ∧ b2.val ≤ 255 ∧ b3.val ≤ 255 ∧
        256 * b4.val + b5.val ≤ 65535 :=
  ⟨by decide, by decide,
    ParsePeers_decodes ⟨"t"⟩ 1 [127, 0, 0, 1, 0x1A, 0xE1] (by decide)⟩

/-- C10: `ParsePeers` is injective on well-formed input. For byte strings whose
lengths are multiples of 6, re-encoding the returned endpoints (four address octets,
then the port as two big-endian bytes) and concatenating reproduces the input, and
two such inputs with equal results are equal. -/
theorem ParsePeers_injective (c : Tracker) (p q : List Byte)
    (hp : p.length % 6 = 0) (hq : q.length % 6 = 0) :
    (∃ l : List Peer, c.ParsePeers p = some ⟨some l, none⟩ ∧ encodePeers l = some p) ∧
    (∃ l : List Peer, c.ParsePeers q = some ⟨some l, none⟩ ∧ encodePeers l = some q) ∧
    (c.ParsePeers p = c.ParsePeers q → p = q) := by
  have hpl : p.length = 6 * (p.length / 6) := by omega
  have hql : q.length = 6 * (q.length / 6) := by omega
  have ep := encodePeers_map_peerAt _ p hpl
  have eq := encodePeers_map_peerAt _ q hql
  refine ⟨⟨_, ParsePeers_ok c p _ hpl, ep⟩, ⟨_, ParsePeers_ok c q _ hql, eq⟩, ?_⟩
  intro h
  rw [ParsePeers_ok c p _ hpl, ParsePeers_ok c q _ hql] at h
  have hl : (List.range (p.length / 6)).map (peerAt p)
      = (List.range (q.length / 6)).map (peerAt q) := by
    simpa using h
  rw [hl, eq] at ep
  exact (Option.some.inj ep).symm

/-- Witness of C10 on two one-record inputs. -/
theorem ParsePeers_injective_witness :
    (∃ l : List Peer, Tracker.ParsePeers ⟨"t"⟩ [127, 0, 0, 1, 0x1A, 0xE1] = some ⟨some l, none⟩ ∧
      encodePeers l = some [127, 0, 0, 1, 0x1A, 0xE1]) ∧
    (∃ l : List Peer, Tracker.ParsePeers ⟨"t"⟩ [10, 0, 0, 1, 0, 80] = some ⟨some l, none⟩ ∧
      encodePeers l = some [10, 0, 0, 1, 0, 80]) ∧
    (Tracker.ParsePeers ⟨"t"⟩ [127, 0, 0, 1, 0x1A, 0xE1] = Tracker.ParsePeers ⟨"t"⟩ [10, 0, 0, 1, 0, 80]
      → ([127, 0, 0, 1, 0x1A, 0xE1] : List Byte) = [10, 0, 0, 1, 0, 80]) :=
  ParsePeers_injective ⟨"t"⟩ [127, 0, 0, 1, 0x1A, 0xE1] [10, 0, 0, 1, 0, 80]
    (by decide) (by decide)

/-! ## `BittorentNetwork.Start` -/

theorem startLoop_none_bindable (bindable : Nat → Bool) :
    ∀ (todo i : Nat) (st : StartState),
      (∀ q, i ≤ q → q < i + todo → bindable q = false) →
      startLoop bindable todo i st
        = { c := st.c, port := st.port, attempts := st.attempts ++ List.range' i todo } := by
  intro todo
  induction todo with
  | zero => intro i st _; simp [startLoop]
  | succ n ih =>
    intro i st h
    have hi : bindable i = false := h i (Nat.le_refl i) (by omega)
    have hrec := ih (i + 1) { st with attempts := st.attempts ++ [i] }
      (fun q h1 h2 => h q (by omega) (by omega))
    simp [startLoop, hi, hrec, List.range'_succ]

theorem startLoop_first_bindable (bindable : Nat → Bool) (p : Nat) :
    ∀ (todo i : Nat) (st : StartState),
      i ≤ p → p < i + todo → bindable p = true →
      (∀ q, i ≤ q → q < p → bindable q = false) →
      startLoop bindable todo i st
        = { c := { listener := some ⟨p⟩ }, port := (p : Int),
            attempts := st.attempts ++ List.range' i (p - i + 1) } := by
  intro todo
  induction todo with
  | zero => intro i st h1 h2; omega
  | succ n ih =>
    intro i st h1 h2 hp hmin
    by_cases hip : i = p
    · subst hip
      simp [startLoop, hp, List.range'_succ]
    · have hi : bindable i = false := hmin i (Nat.le_refl i) (by omega)
      have hrec := ih (i + 1) { st with attempts := st.attempts ++ [i] } (by omega) (by omega)
        hp (fun q h3 h4 => hmin q (by omega) h4)
      have hsub : p - i + 1 = (p - (i + 1) + 1) + 1 := by omega
      simp [startLoop, hi, hrec, hsub, List.range'_succ]

/-- C6: whenever some port in 6881..6889 is bindable, `Start` returns `(p, nil)` for
the smallest bindable port `p` of that range, stores on the receiver the listener
bound on `p`, and has called `net.Listen` on exactly the ports 6881..p in ascending
order (so on no port above `p`); this holds for every state of the receiver. -/
theorem Start_binds_first_free (c : BittorentNetwork) (bindable : Nat → Bool)
    (h : ∃ q, 6881 ≤ q ∧ q ≤ 6889 ∧ bindable q = true) :
    ∃ p : Nat, 6881 ≤ p ∧ p ≤ 6889 ∧ bindable p = true ∧
      (∀ q, 6881 ≤ q → q < p → bindable q = false) ∧
      (c.Start bindable).port = (p : Int) ∧ (c.Start bindable).err = none ∧
      (c.Start bindable).c.listener = some ⟨p⟩ ∧
      (c.Start bindable).attempts = List.range' 6881 (p - 6881 + 1) ∧
      (∀ q ∈ (c.Start bindable).attempts, q ≤ p) ∧
      (c.Start bindable).acceptTask = true := by
  classical
  have hspec := Nat.find_spec h
  have hmin : ∀ q, 6881 ≤ q → q < Nat.find h → bindable q = false := by
    intro q hq hlt
    have hn := Nat.find_min h hlt
    cases hb : bindable q with
    | false => rfl
    | true => exact absurd ⟨hq, by omega, hb⟩ hn
  have hloop := startLoop_first_bindable bindable (Nat.find h) (6890 - 6881) 6881
    { c := c, port := -1, attempts := [] } hspec.1 (by omega) hspec.2.2 hmin
  have hstart : c.Start bindable
      = { port := (Nat.find h : Int), err := none, c := { listener := some ⟨Nat.find h⟩ },
          attempts := List.range' 6881 (Nat.find h - 6881 + 1), acceptTask := true } := by
    simp only [BittorentNetwork.Start, hloop]
    simp
  rw [hstart]
  refine ⟨Nat.find h, hspec.1, hspec.2.1, hspec.2.2, hmin, rfl, rfl, rfl, rfl, ?_, rfl⟩
  intro q hq
  have := List.mem_range'_1.mp hq
  omega

/-- Witness of C6: with ports 6881-6888 occupied and 6889 free, `Start` returns
`(6889, nil)`. -/
theorem Start_binds_first_free_witness :
    ((BittorentNetwork.mk none).Start (fun q => decide (q = 6889))).port = 6889 ∧
    ((BittorentNetwork.mk none).Start (fun q => decide (q = 6889))).err = none ∧
    ∃ p : Nat, 6881 ≤ p ∧ p ≤ 6889 ∧ (fun q => decide (q = 6889)) p = true ∧
      (∀ q, 6881 ≤ q → q < p → (fun q => decide (q = 6889)) q = false) ∧
      ((BittorentNetwork.mk none).Start (fun q => decide (q = 6889))).port = (p : Int) ∧
      ((BittorentNetwork.mk none).Start (fun q => decide (q = 6889))).err = none ∧
      ((BittorentNetwork.mk none).Start (fun q => decide (q = 6889))).c.listener = some ⟨p⟩ ∧
      ((BittorentNetwork.mk none).Start (fun q => decide (q = 6889))).attempts
        = List.range' 6881 (p - 6881 + 1) ∧
      (∀ q ∈ ((BittorentNetwork.mk none).Start (fun q => decide (q = 6889))).attempts, q ≤ p) ∧
      ((BittorentNetwork.mk none).Start (fun q => decide (q = 6889))).acceptTask = true :=
  ⟨by decide, by decide,
    Start_binds_first_free (BittorentNetwork.mk none) (fun q => decide (q = 6889))
      ⟨6889, by decide, by decide, by decide⟩⟩

/-- With a receiver whose `listener` is `nil` before the call, and no bindable port
in 6881..6889, `Start` returns `(0, err)` with a non-nil error, leaves `listener`
`nil` and does not start the accept task. -/
theorem Start_fails_from_nil_listener (bindable : Nat → Bool)
    (hnone : ∀ q, 6881 ≤ q → q ≤ 6889 → bindable q = false) :
    (BittorentNetwork.mk none).Start bindable
      = { port := 0, err := some "Unable to bind to port between 6881 and 6889",
          c := { listener := none }, attempts := List.range' 6881 9, acceptTask := false } := by
  have hloop := startLoop_none_bindable bindable (6890 - 6881) 6881
    { c := { listener := none }, port := -1, attempts := [] }
    (fun q h1 h2 => hnone q h1 (by omega))
  simp only [BittorentNetwork.Start, hloop]
  simp

/-- C7, evaluated on a receiver that already holds a listener (here the one a
previous `Start` bound on 6881) while no port in 6881..6889 is bindable: `Start` tests
`c.listener == nil`, not the outcome of its own loop, so it returns `(-1, nil)`,
a nil error, and starts the accept task although it bound nothing. -/
theorem Start_stale_listener_no_error :
    (BittorentNetwork.mk (some ⟨6881⟩)).Start (fun _ => false)
      = { port := -1, err := none, c := { listener := some ⟨6881⟩ },
          attempts := [6881, 6882, 6883, 6884, 6885, 6886, 6887, 6888, 6889],
          acceptTask := true } := by
  decide

/-! ## Announce coordinator -/

theorem walk_cons_accepted (announce : String → AnnounceResult) (x : String)
    (rest : List String) (log : List Attempt) (h : accepted announce x) :
    walk announce (x :: rest) log = .ret (announce x).resp true (log ++ [.tiered x]) := by
  rw [walk, if_pos h]

theorem walk_cons_rejected (announce : String → AnnounceResult) (x : String)
    (rest : List String) (log : List Attempt) (h : ¬ accepted announce x) :
    walk announce (x :: rest) log = walk announce rest (log ++ [.tiered x]) := by
  rw [walk, if_neg h]

theorem tierLoop_cons (announce : String → AnnounceResult) (tier : List String)
    (index : Nat) (rest : List Nat) (log : List Attempt) (url : String)
    (hget : tier[index]? = some url) :
    tierLoop announce tier (index :: rest) log
      = if accepted announce url then
          some (.ret (announce url).resp true (log ++ [.tiered url]))
        else tierLoop announce tier rest (log ++ [.tiered url]) := by
  simp only [tierLoop, hget, accepted]

theorem tierLoop_eq_walk (announce : String → AnnounceResult) (tier : List String) :
    ∀ (idxs : List Nat) (log : List Attempt), (∀ index ∈ idxs, index < tier.length) →
      tierLoop announce tier idxs log
        = some (walk announce (idxs.filterMap (fun index => tier[index]?)) log) := by
  intro idxs
  induction idxs with
  | nil => intro log _; rfl
  | cons index rest ih =>
    intro log h
    have hlt : index < tier.length := h index (List.mem_cons_self _ _)
    have hget : tier[index]? = some tier[index] := List.getElem?_eq_getElem hlt
    have hrest := fun l => ih l (fun k hk => h k (List.mem_cons_of_mem _ hk))
    rw [tierLoop_cons announce tier index rest log _ hget, List.filterMap_cons_some hget]
    by_cases hacc : accepted announce tier[index]
    · rw [if_pos hacc, walk_cons_accepted _ _ _ _ hacc]
    · rw [if_neg hacc, walk_cons_rejected _ _ _ _ hacc, hrest]

theorem walk_append (announce : String → AnnounceResult) :
    ∀ (xs ys : List String) (log : List Attempt),
      walk announce (xs ++ ys) log
        = match walk announce xs log with
          | .next log1 => walk announce ys log1
          | .ret resp succeeded log1 => .ret resp succeeded log1 := by
  intro xs
  induction xs with
  | nil => intro ys log; rfl
  | cons x rest ih =>
    intro ys log
    by_cases hacc : accepted announce x
    · rw [List.cons_append, walk_cons_accepted _ _ _ _ hacc, walk_cons_accepted _ _ _ _ hacc]
    · rw [List.cons_append, walk_cons_rejected _ _ _ _ hacc, walk_cons_rejected _ _ _ _ hacc, ih]

theorem tiersLoop_eq_walk (announce : String → AnnounceResult) (perm : Nat → Nat → List Nat)
    (hperm : ∀ j n, (perm j n).Perm (List.range n)) :
    ∀ (tiers : List (List String)) (j : Nat) (log : List Attempt),
      tiersLoop announce perm tiers j log
        = some (walk announce (traversalFrom perm tiers j) log) := by
  intro tiers
  induction tiers with
  | nil => intro j log; rfl
  | cons tier rest ih =>
    intro j log
    have hin : ∀ index ∈ perm j tier.length, index < tier.length := by
      intro index hmem
      exact List.mem_range.mp ((hperm j tier.length).mem_iff.mp hmem)
    rw [tiersLoop, tierLoop_eq_walk announce tier _ log hin, traversalFrom, walk_append]
    cases walk announce (List.filterMap (fun index => tier[index]?) (perm j tier.length)) log with
    | next log1 => simp [ih]
    | ret resp succeeded log1 => rfl

theorem walk_none_accepted (announce : String → AnnounceResult) :
    ∀ (l : List String) (log : List Attempt), (∀ u ∈ l, ¬ accepted announce u) →
      walk announce l log = .next (log ++ l.map .tiered) := by
  intro l
  induction l with
  | nil => intro log _; simp [walk]
  | cons x rest ih =>
    intro log h
    have hx : ¬ accepted announce x := h x (List.mem_cons_self _ _)
    rw [walk_cons_rejected _ _ _ _ hx,
      ih (log ++ [Attempt.tiered x]) (fun u hu => h u (List.mem_cons_of_mem _ hu))]
    simp

theorem walk_first_accepted (announce : String → AnnounceResult) (u : String)
    (post : List String) (hu : accepted announce u) :
    ∀ (pre : List String) (log : List Attempt), (∀ x ∈ pre, ¬ accepted announce x) →
      walk announce (pre ++ u :: post) log
        = .ret (announce u).resp true (log ++ (pre.map .tiered ++ [.tiered u])) := by
  intro pre
  induction pre with
  | nil => intro log _; rw [List.nil_append, walk_cons_accepted _ _ _ _ hu]; simp
  | cons x rest ih =>
    intro log h
    have hx : ¬ accepted announce x := h x (List.mem_cons_self _ _)
    rw [List.cons_append, walk_cons_rejected _ _ _ _ hx,
      ih (log ++ [Attempt.tiered x]) (fun y hy => h y (List.mem_cons_of_mem _ hy))]
    simp

theorem first_accepted_split (announce : String → AnnounceResult) :
    ∀ l : List String, (∃ u ∈ l, accepted announce u) →
      ∃ pre u post, l = pre ++ u :: post ∧ (∀ x ∈ pre, ¬ accepted announce x) ∧
        accepted announce u := by
  intro l
  induction l with
  | nil => intro h; obtain ⟨u, hu, _⟩ := h; simp at hu
  | cons x rest ih =>
    intro h
    by_cases hx : accepted announce x
    · exact ⟨[], x, rest, rfl, by simp, hx⟩
    · obtain ⟨u, hu, hacc⟩ := h
      have hrest : ∃ u ∈ rest, accepted announce u := by
        rcases List.mem_cons.mp hu with rfl | hmem
        · exact absurd hacc hx
        · exact ⟨u, hmem, hacc⟩
      obtain ⟨pre, v, post, hl, hpre, hv⟩ := ih hrest
      refine ⟨x :: pre, v, post, by simp [hl], ?_, hv⟩
      intro y hy
      rcases List.mem_cons.mp hy with rfl | hmem
      · exact hx
      · exact hpre y hmem

theorem filterMap_getElem?_range :
    ∀ tier : List String,
      (List.range tier.length).filterMap (fun index => tier[index]?) = tier := by
  intro tier
  induction tier with
  | nil => rfl
  | cons a l ih =>
    rw [List.length_cons, List.range_succ_eq_map, List.filterMap_cons_some (b := a) (by simp),
      List.filterMap_map]
    have hfun : ((fun index => (a :: l)[index]?) ∘ Nat.succ) = fun index => l[index]? := by
      funext k
      simp
    rw [hfun, ih]

theorem traversalFrom_perm (perm : Nat → Nat → List Nat)
    (hperm : ∀ j n, (perm j n).Perm (List.range n)) :
    ∀ (tiers : List (List String)) (j : Nat), (traversalFrom perm tiers j).Perm tiers.flatten := by
  intro tiers
  induction tiers with
  | nil => intro j; exact List.Perm.refl _
  | cons tier rest ih =>
    intro j
    rw [traversalFrom, List.flatten_cons]
    have h1 : ((perm j tier.length).filterMap (fun index => tier[index]?)).Perm tier := by
      have := (hperm j tier.length).filterMap (fun index => tier[index]?)
      rwa [filterMap_getElem?_range] at this
    exact h1.append (ih (j + 1))

theorem mem_traversal_iff (perm : Nat → Nat → List Nat)
    (hperm : ∀ j n, (perm j n).Perm (List.range n)) (tiers : List (List String)) (url : String) :
    url ∈ traversal perm tiers ↔ ∃ tier ∈ tiers, url ∈ tier := by
  rw [traversal, (traversalFrom_perm perm hperm tiers 0).mem_iff, List.mem_flatten]

theorem announceCoordinator_eq (announce : String → AnnounceResult)
    (perm : Nat → Nat → List Nat) (hperm : ∀ j n, (perm j n).Perm (List.range n))
    (torrent : Torrent) :
    announceCoordinator announce perm torrent
      = match walk announce (traversal perm torrent.Data.AnnounceList) [] with
        | .ret resp succeeded log => some ⟨resp, succeeded, log⟩
        | .next log =>
          if (announce torrent.Data.Announce).err = none then
            some ⟨(announce torrent.Data.Announce).resp, true,
              log ++ [.topLevel torrent.Data.Announce]⟩
          else
            some ⟨TrackerResponse.zero, false, log ++ [.topLevel torrent.Data.Announce]⟩ := by
  have hloop : (if torrent.Data.AnnounceList.length > 0 then
        tiersLoop announce perm torrent.Data.AnnounceList 0 []
      else some (.next []))
      = some (walk announce (traversal perm torrent.Data.AnnounceList) []) := by
    by_cases hpos : torrent.Data.AnnounceList.length > 0
    · rw [if_pos hpos, tiersLoop_eq_walk announce perm hperm, traversal]
    · have hnil : torrent.Data.AnnounceList = [] := List.length_eq_zero.mp (by omega)
      rw [if_neg hpos, hnil]
      rfl
  simp only [announceCoordinator, hloop]
  cases walk announce (traversal perm torrent.Data.AnnounceList) [] <;> rfl

theorem filter_isTopLevel_log (l : List String) (top : String) :
    (l.map Attempt.tiered ++ [Attempt.topLevel top]).filter Attempt.isTopLevel
      = [Attempt.topLevel top] := by
  induction l with
  | nil => rfl
  | cons x rest ih =>
    rw [List.map_cons, List.cons_append, List.filter_cons_of_neg (by simp [Attempt.isTopLevel])]
    exact ih

theorem swapFirstPerm_perm : ∀ j n, (swapFirstPerm j n).Perm (List.range n) := by
  intro j n
  unfold swapFirstPerm
  split
  · next h =>
    obtain ⟨_, rfl⟩ := h
    decide
  · exact List.Perm.refl _

theorem identityPerm_perm : ∀ j n, (identityPerm j n).Perm (List.range n) :=
  fun _ _ => List.Perm.refl _

/-- C3: with `rand.Perm` returning a permutation for every tier, if some tiered
tracker answers with no error and an empty `FailureReason`, the coordinator
returns `(response of u, true)` for the first such tracker `u` of the traversal
order (tiers in declared order, each tier's trackers, every one once, in the
permuted order), and its attempts are exactly the tiered trackers before `u` in
that order followed by `u`: no later tracker and no top-level attempt. -/
theorem announce_returns_first_accepted (announce : String → AnnounceResult)
    (perm : Nat → Nat → List Nat) (torrent : Torrent)
    (hperm : ∀ j n, (perm j n).Perm (List.range n))
    (h : ∃ tier ∈ torrent.Data.AnnounceList, ∃ url ∈ tier, accepted announce url) :
    (traversal perm torrent.Data.AnnounceList).Perm torrent.Data.AnnounceList.flatten ∧
    ∃ pre u post, traversal perm torrent.Data.AnnounceList = pre ++ u :: post ∧
      (∀ x ∈ pre, ¬ accepted announce x) ∧ accepted announce u ∧
      announceCoordinator announce perm torrent
        = some ⟨(announce u).resp, true, pre.map Attempt.tiered ++ [Attempt.tiered u]⟩ := by
  refine ⟨traversalFrom_perm perm hperm _ 0, ?_⟩
  have hex : ∃ u ∈ traversal perm torrent.Data.AnnounceList, accepted announce u := by
    obtain ⟨tier, ht, url, hu, hacc⟩ := h
    exact ⟨url, (mem_traversal_iff perm hperm _ url).mpr ⟨tier, ht, hu⟩, hacc⟩
  obtain ⟨pre, u, post, hsplit, hpre, hu⟩ := first_accepted_split announce _ hex
  refine ⟨pre, u, post, hsplit, hpre, hu, ?_⟩
  rw [announceCoordinator_eq announce perm hperm, hsplit,
    walk_first_accepted announce u post hu pre [] hpre]
  simp

/-- Witness of C3: tiers `[[A, B], [C]]` where `A` and `B` fail at the transport
level and `C` answers. Whether the first tier is visited as `A, B` or as `B, A`,
the coordinator returns the response of `C` with `succeeded = true` after
attempting both `A` and `B` and then `C`. -/
theorem announce_returns_first_accepted_witness :
    announceCoordinator onlyCAnswers identityPerm twoTierTorrent
      = some ⟨goodResponse, true, [.tiered "A", .tiered "B", .tiered "C"]⟩ ∧
    announceCoordinator onlyCAnswers swapFirstPerm twoTierTorrent
      = some ⟨goodResponse, true, [.tiered "B", .tiered "A", .tiered "C"]⟩ ∧
    ((traversal swapFirstPerm twoTierTorrent.Data.AnnounceList).Perm
        twoTierTorrent.Data.AnnounceList.flatten ∧
      ∃ pre u post, traversal swapFirstPerm twoTierTorrent.Data.AnnounceList = pre ++ u :: post ∧
        (∀ x ∈ pre, ¬ accepted onlyCAnswers x) ∧ accepted onlyCAnswers u ∧
        announceCoordinator onlyCAnswers swapFirstPerm twoTierTorrent
          = some ⟨(onlyCAnswers u).resp, true, pre.map Attempt.tiered ++ [Attempt.tiered u]⟩) :=
  ⟨by decide, by decide,
    announce_returns_first_accepted onlyCAnswers swapFirstPerm twoTierTorrent swapFirstPerm_perm
      ⟨["C"], by decide, "C", by decide, by decide⟩⟩

theorem none_accepted_in_traversal (announce : String → AnnounceResult)
    (perm : Nat → Nat → List Nat) (hperm : ∀ j n, (perm j n).Perm (List.range n))
    (tiers : List (List String))
    (hnone : ∀ tier ∈ tiers, ∀ url ∈ tier, ¬ accepted announce url) :
    ∀ u ∈ traversal perm tiers, ¬ accepted announce u := by
  intro u hu
  obtain ⟨tier, ht, hmem⟩ := (mem_traversal_iff perm hperm tiers u).mp hu
  exact hnone tier ht u hmem

/-- C4: with `rand.Perm` returning a permutation for every tier, whenever no tiered
tracker is accepted (no tiers, or every tiered answer has an error or a non-empty
`FailureReason`), the attempts are all tiered trackers in traversal order followed
by one attempt on the top-level announce URL, the only top-level attempt; and if
that attempt returns no error its response is returned unchanged with
`succeeded = true`, whatever its `FailureReason`. -/
theorem announce_falls_back_to_top_level (announce : String → AnnounceResult)
    (perm : Nat → Nat → List Nat) (torrent : Torrent)
    (hperm : ∀ j n, (perm j n).Perm (List.range n))
    (hnone : ∀ tier ∈ torrent.Data.AnnounceList, ∀ url ∈ tier, ¬ accepted announce url) :
    ∃ r : CoordinatorResult, announceCoordinator announce perm torrent = some r ∧
      r.log = (traversal perm torrent.Data.AnnounceList).map Attempt.tiered
        ++ [Attempt.topLevel torrent.Data.Announce] ∧
      r.log.filter Attempt.isTopLevel = [Attempt.topLevel torrent.Data.Announce] ∧
      ((announce torrent.Data.Announce).err = none →
        r.resp = (announce torrent.Data.Announce).resp ∧ r.succeeded = true) := by
  have hwalk := walk_none_accepted announce _ []
    (none_accepted_in_traversal announce perm hperm _ hnone)
  have heq := announceCoordinator_eq announce perm hperm torrent
  rw [hwalk] at heq
  simp only [List.nil_append] at heq
  by_cases herr : (announce torrent.Data.Announce).err = none
  · rw [if_pos herr] at heq
    exact ⟨_, heq, rfl, filter_isTopLevel_log _ _, fun _ => ⟨rfl, rfl⟩⟩
  · rw [if_neg herr] at heq
    exact ⟨_, heq, rfl, filter_isTopLevel_log _ _, fun h0 => absurd h0 herr⟩

/-- Witness of C4: no tiers, and a top-level tracker that answers without error
but with a non-empty failure reason; the result is that response with
`succeeded = true`. -/
theorem announce_falls_back_to_top_level_witness :
    announceCoordinator rejectingAnnounce identityPerm bareTorrent
      = some ⟨⟨"torrent not registered", 0, []⟩, true, [.topLevel "T"]⟩ ∧
    ∃ r : CoordinatorResult, announceCoordinator rejectingAnnounce identityPerm bareTorrent = some r ∧
      r.log = (traversal identityPerm bareTorrent.Data.AnnounceList).map Attempt.tiered
        ++ [Attempt.topLevel bareTorrent.Data.Announce] ∧
      r.log.filter Attempt.isTopLevel = [Attempt.topLevel bareTorrent.Data.Announce] ∧
      ((rejectingAnnounce bareTorrent.Data.Announce).err = none →
        r.resp = (rejectingAnnounce bareTorrent.Data.Announce).resp ∧ r.succeeded = true) :=
  ⟨by decide,
    announce_falls_back_to_top_level rejectingAnnounce identityPerm bareTorrent identityPerm_perm
      (by decide)⟩

/-- C5 as stated fails: with no tiers and a top-level tracker that answers without
error and with an empty response, the coordinator returns the empty
`TrackerResponse` although the announce succeeded. The empty response is therefore
not returned in the failure case only. -/
theorem announce_empty_response_on_success :
    announceCoordinator emptyAnnounce identityPerm bareTorrent
      = some ⟨TrackerResponse.zero, true, [.topLevel "T"]⟩ ∧
    ¬ allFailed emptyAnnounce bareTorrent :=
  ⟨by decide, fun h => h.2 rfl⟩

/-- C5, amended: with `rand.Perm` returning a permutation for every tier, the
coordinator returns `succeeded = false` if and only if no tiered tracker is
accepted and the top-level attempt returns an error; in that case the returned
response is the zero-valued `TrackerResponse`; otherwise the returned response is,
unchanged, the answer of the last tracker attempted, which answered without error
(and may itself be empty). -/
theorem announce_fails_iff_all_failed (announce : String → AnnounceResult)
    (perm : Nat → Nat → List Nat) (torrent : Torrent)
    (hperm : ∀ j n, (perm j n).Perm (List.range n)) :
    ∃ r : CoordinatorResult, announceCoordinator announce perm torrent = some r ∧
      (r.succeeded = false ↔ allFailed announce torrent) ∧
      (allFailed announce torrent → r.resp = TrackerResponse.zero) ∧
      (¬ allFailed announce torrent → ∃ u, (announce u).err = none ∧
        r.resp = (announce u).resp ∧
        (r.log.getLast? = some (Attempt.tiered u) ∨
          r.log.getLast? = some (Attempt.topLevel u))) := by
  have heq := announceCoordinator_eq announce perm hperm torrent
  by_cases hex : ∃ tier ∈ torrent.Data.AnnounceList, ∃ url ∈ tier, accepted announce url
  · have hnot : ¬ allFailed announce torrent := by
      intro hall
      obtain ⟨tier, ht, url, hu, hacc⟩ := hex
      exact hall.1 tier ht url hu hacc
    have hex2 : ∃ u ∈ traversal perm torrent.Data.AnnounceList, accepted announce u := by
      obtain ⟨tier, ht, url, hu, hacc⟩ := hex
      exact ⟨url, (mem_traversal_iff perm hperm _ url).mpr ⟨tier, ht, hu⟩, hacc⟩
    obtain ⟨pre, u, post, hsplit, hpre, hu⟩ := first_accepted_split announce _ hex2
    rw [hsplit, walk_first_accepted announce u post hu pre [] hpre] at heq
    refine ⟨_, heq, ?_, fun hall => absurd hall hnot, fun _ => ⟨u, hu.1, rfl, Or.inl ?_⟩⟩
    · simp [hnot]
    · simp
  · have hnone : ∀ tier ∈ torrent.Data.AnnounceList, ∀ url ∈ tier, ¬ accepted announce url :=
      fun tier ht url hu hacc => hex ⟨tier, ht, url, hu, hacc⟩
    have hwalk := walk_none_accepted announce _ []
      (none_accepted_in_traversal announce perm hperm _ hnone)
    rw [hwalk] at heq
    simp only [List.nil_append] at heq
    by_cases herr : (announce torrent.Data.Announce).err = none
    · have hnot : ¬ allFailed announce torrent := fun hall => hall.2 herr
      rw [if_pos herr] at heq
      refine ⟨_, heq, ?_, fun hall => absurd hall hnot,
        fun _ => ⟨torrent.Data.Announce, herr, rfl, Or.inr ?_⟩⟩
      · simp [hnot]
      · simp
    · have hall : allFailed announce torrent := ⟨hnone, herr⟩
      rw [if_neg herr] at heq
      exact ⟨_, heq, by simp [hall], fun _ => rfl, fun hnot => absurd hall hnot⟩

/-- Witness of C5 (amended) on the announce-list `[[A, B], [C]]` with every tracker
dead: the coordinator reports failure with the empty response after attempting all
four URLs. -/
theorem announce_fails_iff_all_failed_witness :
    announceCoordinator deadAnnounce swapFirstPerm twoTierTorrent
      = some ⟨TrackerResponse.zero, false,
          [.tiered "B", .tiered "A", .tiered "C", .topLevel "T"]⟩ ∧
    ∃ r : CoordinatorResult, announceCoordinator deadAnnounce swapFirstPerm twoTierTorrent = some r ∧
      (r.succeeded = false ↔ allFailed deadAnnounce twoTierTorrent) ∧
      (allFailed deadAnnounce twoTierTorrent → r.resp = TrackerResponse.zero) ∧
      (¬ allFailed deadAnnounce twoTierTorrent → ∃ u, (deadAnnounce u).err = none ∧
        r.resp = (deadAnnounce u).resp ∧
        (r.log.getLast? = some (Attempt.tiered u) ∨
          r.log.getLast? = some (Attempt.topLevel u))) :=
  ⟨by decide,
    announce_fails_iff_all_failed deadAnnounce swapFirstPerm twoTierTorrent swapFirstPerm_perm⟩

/-! ## `computeInfoHash` and `NewTorrent` -/

theorem computeInfoHash_dict (fs : FileSystem) (bc : Bencode) (sha : Sha1) (path : String)
    (file : List Byte) (entries : List (String × BValue))
    (hopen : fs.Open path = .ok file) (hdec : bc.Decode file = .ok (.dict entries)) :
    computeInfoHash fs bc sha path
      = match bc.Marshal (entries.lookup "info") with
        | .error e => ⟨none, some ("Failed to encode info dict: " ++ e)⟩
        | .ok infoBuffer => ⟨some (sha.sum infoBuffer), none⟩ := by
  simp only [computeInfoHash, hopen, hdec]

theorem computeInfoHash_not_dict (fs : FileSystem) (bc : Bencode) (sha : Sha1) (path : String)
    (file : List Byte) (data : BValue)
    (hopen : fs.Open path = .ok file) (hdec : bc.Decode file = .ok data)
    (hnot : ∀ entries, data ≠ .dict entries) :
    computeInfoHash fs bc sha path = ⟨none, some "Torrent file is not a dictionary"⟩ := by
  cases data with
  | dict entries => exact absurd rfl (hnot entries)
  | int v => simp only [computeInfoHash, hopen, hdec]
  | str v => simp only [computeInfoHash, hopen, hdec]
  | list v => simp only [computeInfoHash, hopen, hdec]

theorem NewTorrent_of_hash_error (fs : FileSystem) (bc : Bencode) (sha : Sha1) (path : String)
    (file : List Byte) (r : Except String MetaInfo) (e : String)
    (hopen : fs.Open path = .ok file) (hun : bc.Unmarshal file = some r)
    (herr : (computeInfoHash fs bc sha path).err = some e) :
    ∃ e1, NewTorrent fs bc sha path = some ⟨Torrent.zero, some e1⟩ := by
  cases r with
  | error e2 =>
    exact ⟨"Failed to decode torrent file: " ++ e2, by simp only [NewTorrent, hopen, hun]⟩
  | ok info =>
    exact ⟨"Failed to compute info hash: " ++ e, by simp only [NewTorrent, hopen, hun, herr]⟩

theorem NewTorrent_of_Unmarshal_panic (fs : FileSystem) (bc : Bencode) (sha : Sha1)
    (path : String) (file : List Byte)
    (hopen : fs.Open path = .ok file) (hpanic : bc.Unmarshal file = none) :
    NewTorrent fs bc sha path = none := by
  simp only [NewTorrent, hopen, hpanic]

/-- On a dictionary without the key `"info"`, `computeInfoHash` has no check of its
own: its result is decided by what `bencode.Marshal` does with a nil value. -/
theorem computeInfoHash_missing_info (fs : FileSystem) (bc : Bencode) (sha : Sha1)
    (path : String) (file : List Byte) (entries : List (String × BValue))
    (hopen : fs.Open path = .ok file) (hdec : bc.Decode file = .ok (.dict entries))
    (hinfo : entries.lookup "info" = none) :
    computeInfoHash fs bc sha path
      = match bc.Marshal none with
        | .error e => ⟨none, some ("Failed to encode info dict: " ++ e)⟩
        | .ok infoBuffer => ⟨some (sha.sum infoBuffer), none⟩ := by
  rw [computeInfoHash_dict fs bc sha path file entries hopen hdec, hinfo]

/-- C8: with `bencode.Decode`, `bencode.Marshal` and SHA-1 fixed, two files that
decode to dictionaries with the same value under `"info"` get the same result from
`computeInfoHash`, whatever else the two dictionaries hold; when `Marshal` encodes
that value as `enc`, both results are the 20-byte digest of `enc` with a nil
error, so the hash is SHA-1 of the re-encoded `info` sub-tree and of nothing else. -/
theorem computeInfoHash_depends_only_on_info (fs : FileSystem) (bc : Bencode) (sha : Sha1)
    (path1 path2 : String) (file1 file2 : List Byte)
    (dict1 dict2 : List (String × BValue)) (info : BValue)
    (hopen1 : fs.Open path1 = .ok file1) (hopen2 : fs.Open path2 = .ok file2)
    (hdec1 : bc.Decode file1 = .ok (.dict dict1)) (hdec2 : bc.Decode file2 = .ok (.dict dict2))
    (hinfo1 : dict1.lookup "info" = some info) (hinfo2 : dict2.lookup "info" = some info) :
    computeInfoHash fs bc sha path1 = computeInfoHash fs bc sha path2 ∧
    ∀ enc, bc.Marshal (some info) = .ok enc →
      computeInfoHash fs bc sha path1 = ⟨some (sha.sum enc), none⟩ ∧
      computeInfoHash fs bc sha path2 = ⟨some (sha.sum enc), none⟩ ∧
      (sha.sum enc).length = 20 := by
  have h1 := computeInfoHash_dict fs bc sha path1 file1 dict1 hopen1 hdec1
  have h2 := computeInfoHash_dict fs bc sha path2 file2 dict2 hopen2 hdec2
  rw [hinfo1] at h1
  rw [hinfo2] at h2
  refine ⟨by rw [h1, h2], ?_⟩
  intro enc henc
  rw [henc] at h1 h2
  exact ⟨h1, h2, sha.size enc⟩

/-- Witness of C8: the scenario files `a.torrent` and `b.torrent` share their
`info` entry and differ in every other key. -/
theorem computeInfoHash_depends_only_on_info_witness :
    computeInfoHash toyFiles toyBencode toySha1 "a.torrent"
      = computeInfoHash toyFiles toyBencode toySha1 "b.torrent" ∧
    ∀ enc, toyBencode.Marshal (some toyInfo) = .ok enc →
      computeInfoHash toyFiles toyBencode toySha1 "a.torrent" = ⟨some (toySha1.sum enc), none⟩ ∧
      computeInfoHash toyFiles toyBencode toySha1 "b.torrent" = ⟨some (toySha1.sum enc), none⟩ ∧
      (toySha1.sum enc).length = 20 :=
  computeInfoHash_depends_only_on_info toyFiles toyBencode toySha1 "a.torrent" "b.torrent"
    [1] [2] _ _ toyInfo rfl rfl rfl rfl rfl rfl

/-- C9, evaluated on `d.torrent`, the file `i5e` whose top-level value is an
integer and not a mapping. `computeInfoHash` alone returns
`(nil, "Torrent file is not a dictionary")`, but `NewTorrent` first calls
`bencode.Unmarshal(file, &info)`, which panics on this file: `NewTorrent` does not
return `(Torrent{}, err)`, it does not return at all. -/
theorem NewTorrent_panics_on_top_level_integer :
    toyFiles.Open "d.torrent" = .ok [105, 53, 101] ∧
    computeInfoHash toyFiles toyBencode toySha1 "d.torrent"
      = ⟨none, some "Torrent file is not a dictionary"⟩ ∧
    NewTorrent toyFiles toyBencode toySha1 "d.torrent" = none :=
  ⟨rfl, by decide, by decide⟩

end BittorrentClient
